import Mathlib

/-!
# Verification of the obsidian-assistant incremental hybrid search index

This file is a shallow embedding, in Lean 4, of the core search/indexing logic
of the `obsidian-assistant` plugin (files `src/search-service.ts` and
`src/embedding-service.ts`), together with proofs and refutations of the
specification claims about that logic.

Conventions of the embedding:
* document contents are `List Char` (JavaScript strings, indexed by character);
* JavaScript `Map` objects are insertion-ordered association lists
  (`List (String × α)`), with `Map.set` replacing in place or appending,
  exactly as the ECMAScript specification prescribes;
* numeric scores are `ℚ` (the merge/sort logic only compares and copies
  scores); embedding vectors are `List ℚ` where only stored and moved, and
  `List ℝ` in the cosine-similarity analysis, where actual arithmetic happens;
* asynchronous calls that can fail (the embedding provider, the persistence
  adapter, the full-text engine) are modelled by `Except`-valued oracles
  passed in as parameters; a thrown exception is an `Except.error` carrying
  the message of the JavaScript `Error`;
* `Date.now()` is passed in as a `now : Nat` parameter;
* `console.log` calls, progress counters (`currentFileIndex`, `totalFiles`,
  `filesIndexed`) and the `lastError` string are status reporting only and
  are not modelled.
-/

/-! ## Data model: documents, chunking options (`search-service.ts:6-32`) -/

/-- `interface NoteDocument` from `search-service.ts` (a document, or a chunk
of a document, as stored in the full-text index).  The optional `embedding`
field is set on chunks by `indexFile` when vector search is enabled. -/
structure NoteDocument where
  id : String
  title : String
  content : List Char
  path : String
  embedding : Option (List ℚ) := none
deriving DecidableEq, Repr

/-- `interface ChunkingOptions` from `search-service.ts`. -/
structure ChunkingOptions where
  chunkSize : Nat
  chunkOverlap : Nat
deriving DecidableEq, Repr

/-! ## The chunker (`SearchService.chunkDocument`, `search-service.ts:164-207`) -/

/-- The chunk id built by `chunkDocument`: the template literal
`` `${id}-chunk-${chunkIndex}` `` (JavaScript renders the index in decimal,
which is `Nat.repr`). -/
def chunkId (id : String) (idx : Nat) : String :=
  id ++ "-chunk-" ++ Nat.repr idx

/-- The `while (startIndex < content.length)` loop of
`SearchService.chunkDocument` (`search-service.ts:177-204`), embedded with a
fuel argument that strictly dominates the number of iterations the JavaScript
loop can perform when entered at `startIndex = 0` (each iteration either
terminates the loop or strictly increases `startIndex` inside
`(0, content.length)`, so `content.length + 1` iterations are never reached).
`startIndex` is a `Nat`; the JavaScript test `startIndex <= 0` on the
possibly negative `endIndex - chunkOverlap` coincides with the test
`endIndex - chunkOverlap = 0` on truncated `Nat` subtraction. -/
def chunkGo (chunkSize chunkOverlap : Nat) (id title path : String)
    (content : List Char) : Nat → Nat → Nat → List NoteDocument
  | 0, _, _ => []
  | fuel + 1, startIndex, chunkIndex =>
    if startIndex < content.length then
      let endIndex := min (startIndex + chunkSize) content.length
      let chunkContent := (content.drop startIndex).take (endIndex - startIndex)
      let c : NoteDocument :=
        { id := chunkId id chunkIndex, title := title, content := chunkContent,
          path := path }
      if content.length ≤ endIndex then [c]
      else
        let startIndex' := endIndex - chunkOverlap
        if startIndex' = 0 ∨ content.length - 1 ≤ startIndex' then [c]
        else c :: chunkGo chunkSize chunkOverlap id title path content fuel
          startIndex' (chunkIndex + 1)
    else []

/-- `SearchService.chunkDocument` (`search-service.ts:164-207`): a document no
longer than `chunkSize` is returned as the single chunk `[document]`
unmodified; otherwise the sliding-window loop `chunkGo` runs from
`startIndex = 0`, `chunkIndex = 0`. -/
def chunkDocument (o : ChunkingOptions) (d : NoteDocument) : List NoteDocument :=
  if d.content.length ≤ o.chunkSize then [d]
  else chunkGo o.chunkSize o.chunkOverlap d.id d.title d.path d.content
    (d.content.length + 1) 0 0

/-- The reconstruction of a document from its chunk contents described by the
spec: the first chunk content, followed by every later chunk content with its
leading `chunkOverlap` characters stripped. -/
def reconstruct (chunkOverlap : Nat) : List (List Char) → List Char
  | [] => []
  | c :: cs => c ++ (cs.map (List.drop chunkOverlap)).flatten

/-! ## Decimal rendering of `Nat` (needed to reason about chunk ids)

`digitVal` and `parseFrom` read a decimal digit string back into a number;
they are used to prove that `Nat.repr` (and hence `chunkId`) is injective. -/

/-- The numeric value of a decimal digit character. -/
def digitVal (c : Char) : Nat :=
  c.toNat - Char.toNat (Char.ofNat 48)

/-- Reads a digit string back into a number, starting from accumulator `a`. -/
def parseFrom (a : Nat) (l : List Char) : Nat :=
  l.foldl (fun x c => 10 * x + digitVal c) a

/-! ## JavaScript `Map` as an insertion-ordered association list -/

/-- `Map.prototype.get`. -/
def mapGet {α : Type} (m : List (String × α)) (k : String) : Option α :=
  (m.find? (fun p => p.1 == k)).map (fun p => p.2)

/-- `Map.prototype.set`: replaces the value in place when the key is present
(keeping its position, as ECMAScript prescribes), otherwise appends. -/
def mapSet {α : Type} (m : List (String × α)) (k : String) (v : α) :
    List (String × α) :=
  if m.any (fun p => p.1 == k) then
    m.map (fun p => if p.1 == k then (k, v) else p)
  else m ++ [(k, v)]

/-- `Map.prototype.delete`. -/
def mapDel {α : Type} (m : List (String × α)) (k : String) : List (String × α) :=
  m.filter (fun p => ! (p.1 == k))

/-! ## Scored results and the hybrid merge (`searchVault`, `search-service.ts:495-538`) -/

/-- A `{ document, score }` pair, the common shape of vector-search and
keyword-search results inside `searchVault`. -/
structure ScoredResult where
  document : NoteDocument
  score : ℚ
deriving DecidableEq, Repr

/-- The `combinedResultsMap` construction of `searchVault`
(`search-service.ts:513-533`): vector results are seeded into the map first;
each keyword result then replaces an existing entry for the same document id
only when its score is strictly greater, and is inserted otherwise. -/
def combineResults (vectorResults keywordResults : List ScoredResult) :
    List (String × ScoredResult) :=
  let seeded := vectorResults.foldl
    (fun m result => mapSet m result.document.id result) []
  keywordResults.foldl
    (fun m result =>
      match mapGet m result.document.id with
      | some existingResult =>
        if existingResult.score < result.score then
          mapSet m result.document.id result
        else m
      | none => mapSet m result.document.id result)
    seeded

/-- Stable insertion into a descending-sorted list: the new element goes in
front of the first element whose score is `≤` its own.  Together with
`sortByScoreDesc` this is the unique stable descending sort, which is what
`Array.prototype.sort` with comparator `(a, b) => b.score - a.score`
computes (ECMAScript sort is stable). -/
def insertDesc (r : ScoredResult) : List ScoredResult → List ScoredResult
  | [] => [r]
  | x :: xs => if x.score ≤ r.score then r :: x :: xs else x :: insertDesc r xs

/-- Stable descending sort by score, modelling
`.sort((a, b) => b.score - a.score)` (`search-service.ts:537`). -/
def sortByScoreDesc : List ScoredResult → List ScoredResult
  | [] => []
  | x :: xs => insertDesc x (sortByScoreDesc xs)

/-- Lines 536-538 of `search-service.ts`:
`Array.from(combinedResultsMap.values()).sort((a, b) => b.score - a.score).slice(0, this.maxSearchResults)`.
`Array.from(map.values())` enumerates values in insertion order, which for
the association-list model is `List.map Prod.snd`. -/
def hybridMerge (vectorResults keywordResults : List ScoredResult)
    (maxSearchResults : Nat) : List ScoredResult :=
  (sortByScoreDesc ((combineResults vectorResults keywordResults).map
    (fun p => p.2))).take maxSearchResults

/-! ## Indexer state machine (`SearchService`, `search-service.ts:37-419`) -/

/-- The configuration the `SearchService` instance holds: chunking options,
whether vector search is enabled, whether an embedding service is configured
(`this.embeddingService !== null`), and the result limit. -/
structure SearchConfig where
  chunkingOptions : ChunkingOptions
  useVectorSearch : Bool
  hasEmbeddingService : Bool
  maxSearchResults : Nat
deriving DecidableEq, Repr

/-- An Obsidian `TFile` together with the content `vault.read` returns for
it: `path`, `basename`, `stat.mtime`, and the file body. -/
structure TFile where
  path : String
  basename : String
  mtime : Nat
  content : List Char
deriving DecidableEq, Repr

/-- The mutable state of a `SearchService` instance:
* `hasIndex` — `this.index !== null`;
* `indexReady`, `indexingFailed` — the status flags;
* `ftIndex` — the documents stored in the Orama full-text index, in
  insertion order;
* `documentEmbeddings` — `this.documentEmbeddings` (`Map<string, number[]>`);
* `fileModificationTimes` — `this.fileModificationTimes`
  (`Map<string, number>`, the modification-time ledger);
* `isDirty`, `dirtyTimestamp`, `saveTimer` — the dirty/auto-save machinery
  (`saveTimer` records whether `this.saveTimer !== null`). -/
structure SState where
  hasIndex : Bool
  indexReady : Bool
  indexingFailed : Bool
  ftIndex : List NoteDocument
  documentEmbeddings : List (String × List ℚ)
  fileModificationTimes : List (String × Nat)
  isDirty : Bool
  dirtyTimestamp : Nat
  saveTimer : Bool
deriving DecidableEq, Repr

/-- The outcome function of `EmbeddingService.getDocumentEmbedding` during one
`indexFile` call: for a chunk content, either the embedding vector the
provider returns, or the thrown error. -/
def Embedder : Type :=
  List Char → Except String (List ℚ)

/-- An embedder that always fails (used in concrete evaluations). -/
def failingEmbedder : Embedder :=
  fun _ => Except.error "boom"

/-- `SearchService.markDirty` (`search-service.ts:90-124`): sets the dirty
flag and records `Date.now()` when not already dirty, and starts the
auto-save interval timer when none is running.  The body of the timer
callback is runtime scheduling and is not part of the state transition. -/
def markDirty (now : Nat) (st : SState) : SState :=
  let st1 := if st.isDirty then st
    else { st with isDirty := true, dirtyTimestamp := now }
  if st1.saveTimer then st1 else { st1 with saveTimer := true }

/-- The change-detection test of `indexFile` (`search-service.ts:340-344`):
`if (lastMtime && lastMtime === currentMtime)`.  Note the JavaScript
truthiness test: a recorded modification time of `0` is falsy, so it never
triggers the skip. -/
def jsSkipUnchanged (lastMtime : Option Nat) (currentMtime : Nat) : Bool :=
  match lastMtime with
  | some v => (! (v == 0)) && v == currentMtime
  | none => false

/-- One iteration of the stale-chunk removal loop of `indexFile`
(`search-service.ts:358-366`): `remove(this.index, document.id)` plus, when
vector search is enabled, `this.documentEmbeddings.delete(document.id)`. -/
def removeChunk (useVectorSearch : Bool) (st : SState) (docId : String) : SState :=
  { st with
    ftIndex := st.ftIndex.filter (fun d => ! (d.id == docId)),
    documentEmbeddings :=
      if useVectorSearch then mapDel st.documentEmbeddings docId
      else st.documentEmbeddings }

/-- The `NoteDocument` an `indexFile` call builds from a file and its
content (`search-service.ts:377-382`). -/
def fileDocument (f : TFile) : NoteDocument :=
  { id := f.path, title := f.basename, content := f.content, path := f.path }

/-- Whether an `Except` value is an error (a thrown exception). -/
def isError {epsilon alpha : Type} : Except epsilon alpha → Bool
  | Except.error _ => true
  | Except.ok _ => false

/-- The embedding loop of `indexFile` (`search-service.ts:388-403`): chunks
are embedded in order; each success stores the vector both on the chunk
object and in `this.documentEmbeddings` <em>before</em> the next chunk is
attempted; the first failure rethrows
`Failed to generate embedding for chunk <id>`, leaving the map updates of
the earlier chunks in place. -/
def embedChunks (emb : Embedder) :
    List NoteDocument → SState → List NoteDocument × SState × Option String
  | [], st => ([], st, none)
  | c :: cs, st =>
    match emb c.content with
    | Except.error _ =>
      ([], st, some ("Failed to generate embedding for chunk " ++ c.id))
    | Except.ok v =>
      let st1 := { st with documentEmbeddings := mapSet st.documentEmbeddings c.id v }
      let rest := embedChunks emb cs st1
      ({ c with embedding := some v } :: rest.1, rest.2)

/-- `SearchService.indexFile` (`search-service.ts:326-419`).  Returns the
state the service object is left in together with the message of the thrown
error, if any (the outer catch rethrows `Failed to index file <path>`).
Steps, in source order: missing-index guard; FAILED-state no-op;
change-detection skip; exact-path search and removal of stale chunks (with
`markDirty` when any were removed); chunking of the file content; the
embedding loop when vector search is enabled and an embedding service is
configured; `insertMultiple`; ledger update; `markDirty`. -/
def indexFile (cfg : SearchConfig) (emb : Embedder) (now : Nat) (st : SState)
    (f : TFile) : SState × Option String :=
  if ¬ st.hasIndex then (st, some "Search index not initialized")
  else if st.indexingFailed then (st, none)
  else
    let currentMtime := f.mtime
    let lastMtime := mapGet st.fileModificationTimes f.path
    if jsSkipUnchanged lastMtime currentMtime then (st, none)
    else
      let hits := st.ftIndex.filter (fun d => d.path == f.path)
      let st1 := hits.foldl (fun s hit => removeChunk cfg.useVectorSearch s hit.id) st
      let st2 := if hits.length > 0 then markDirty now st1 else st1
      let chunks := chunkDocument cfg.chunkingOptions (fileDocument f)
      let er := if cfg.useVectorSearch && cfg.hasEmbeddingService then
          embedChunks emb chunks st2
        else (chunks, st2, none)
      match er with
      | (_, stE, some _) => (stE, some ("Failed to index file " ++ f.path))
      | (chunks', stE, none) =>
        let stI := { stE with
          ftIndex := stE.ftIndex ++ chunks',
          fileModificationTimes :=
            mapSet stE.fileModificationTimes f.path currentMtime }
        (markDirty now stI, none)

/-- The `for (const file of markdownFiles)` loop of `SearchService.indexVault`
(`search-service.ts:285-312`): each file goes through `indexFile`; a thrown
error sets `indexingFailed` and rethrows `Error indexing files`, aborting the
loop; after a normal return the loop also breaks early if `indexingFailed`
is set. -/
def indexVaultGo (cfg : SearchConfig) (emb : Embedder) (now : Nat) :
    SState → List TFile → SState × Option String
  | st, [] => (st, none)
  | st, f :: fs =>
    match indexFile cfg emb now st f with
    | (st1, some _) => ({ st1 with indexingFailed := true }, some "Error indexing files")
    | (st1, none) =>
      if st1.indexingFailed then (st1, none)
      else indexVaultGo cfg emb now st1 fs

/-- `SearchService.indexVault` (`search-service.ts:272-320`): missing-index
guard, the per-file loop, and the outer catch that rethrows
`Failed to index vault`. -/
def indexVault (cfg : SearchConfig) (emb : Embedder) (now : Nat) (st : SState)
    (files : List TFile) : SState × Option String :=
  if ¬ st.hasIndex then (st, some "Search index not initialized")
  else
    match indexVaultGo cfg emb now st files with
    | (st1, some _) => (st1, some "Failed to index vault")
    | (st1, none) => (st1, none)

/-! ## Persistence (`save` / `load` / `cleanup`, `search-service.ts:680-777`) -/

/-- The JSON bundle written to the sidecar file by `save` and read back by
`load`: the serialized full-text index (modelled by the list of documents it
restores to), the modification-time ledger, and the embedding store.
`documentEmbeddings` is an `Option` because `load` guards on the field being
present (`parsedData.documentEmbeddings && ...`). -/
structure SavedBundle where
  serializedIndex : List NoteDocument
  fileModificationTimes : List (String × Nat)
  documentEmbeddings : Option (List (String × List ℚ))
deriving DecidableEq, Repr

/-- `SearchService.save` (`search-service.ts:680-718`): fails when the index
is missing or not ready; otherwise writes the bundle (`writeOk` is the
outcome of the adapter write) and, on success, clears the dirty flag, resets
the dirty timestamp and stops the auto-save timer.  On a failed write the
error `Failed to save search index` is rethrown and the flags stay as they
were. -/
def save (st : SState) (writeOk : Bool) : SState × Option String :=
  if ¬ (st.hasIndex && st.indexReady) then
    (st, some "Cant save index: index not ready")
  else if writeOk then
    ({ st with isDirty := false, dirtyTimestamp := 0, saveTimer := false }, none)
  else (st, some "Failed to save search index")

/-- `SearchService.load` (`search-service.ts:724-759`).  `fileExists` is the
adapter existence check for the sidecar file; `parsed` is the combined
outcome of reading, `JSON.parse`, and `restore` (`none` models any exception
on that path, which the catch turns into a `false` return).  On success the
index, the ledger and (if vector search is enabled and the field is present)
the embedding store are restored and the index is marked ready. -/
def load (cfg : SearchConfig) (st : SState) (fileExists : Bool)
    (parsed : Option SavedBundle) : SState × Bool :=
  if ¬ fileExists then (st, false)
  else
    match parsed with
    | none => (st, false)
    | some bundle =>
      ({ st with
          hasIndex := true,
          ftIndex := bundle.serializedIndex,
          fileModificationTimes := bundle.fileModificationTimes,
          documentEmbeddings :=
            if cfg.useVectorSearch && bundle.documentEmbeddings.isSome then
              bundle.documentEmbeddings.getD []
            else st.documentEmbeddings,
          indexReady := true }, true)

/-- `SearchService.cleanup` (`search-service.ts:764-777`): always stops the
auto-save timer; then, only when the index is dirty <em>and</em> ready,
fires a final `save` whose error (if any) is logged and swallowed
(`this.save().catch(...)`).  The returned `Bool` records whether a save was
attempted. -/
def cleanup (st : SState) (writeOk : Bool) : SState × Bool :=
  let st1 := { st with saveTimer := false }
  if st1.isDirty && st1.indexReady then ((save st1 writeOk).1, true)
  else (st1, false)

/-! ## Query path (`searchVault`, `search-service.ts:484-595`) -/

/-- Whether the needle is a prefix of the haystack (character lists). -/
def startsWithChars : List Char → List Char → Bool
  | [], _ => true
  | _ :: _, [] => false
  | q :: qs, c :: cs => q == c && startsWithChars qs cs

/-- `String.prototype.indexOf` on character lists, from position `i`. -/
def indexOfFrom : List Char → List Char → Nat → Option Nat
  | [], q, i => if q.isEmpty then some i else none
  | c :: cs, q, i =>
    if startsWithChars q (c :: cs) then some i else indexOfFrom cs q (i + 1)

/-- `content.toLowerCase().indexOf(query.toLowerCase())`
(`search-service.ts:572`). -/
def indexOfCI (content query : List Char) : Option Nat :=
  indexOfFrom (content.map Char.toLower) (query.map Char.toLower) 0

/-- Zero-pads a decimal string on the left to four characters. -/
def padLeft4 (s : String) : String :=
  String.mk (List.replicate (4 - s.length) (Char.ofNat 48)) ++ s

/-- `Number.prototype.toFixed(4)` modelled with exact rational rounding
(round-half-up on the scaled value); the JavaScript original rounds the
binary double, which agrees on all values whose scaled-by-10000 form is not
a rounding tie.  No claim depends on the rendered digits. -/
def toFixed4 (q : ℚ) : String :=
  let n : Int := round (q * 10000)
  let m := n.natAbs
  (if n < 0 then "-" else "") ++ Nat.repr (m / 10000) ++ "." ++
    padLeft4 (Nat.repr (m % 10000))

/-- The snippet extraction of `searchVault` (`search-service.ts:564-583`):
the whole content when it has at most 500 characters, else a window of 200
characters before to 300 characters after the first case-insensitive
occurrence of the query, else the first 500 characters; windows get a
trailing ellipsis. -/
def snippetFor (query content : List Char) : String :=
  if content.length ≤ 500 then "\n" ++ content.asString ++ "\n\n"
  else
    match indexOfCI content query with
    | some queryIndex =>
      let start := queryIndex - 200
      let stop := min content.length (queryIndex + 300)
      "\n" ++ ((content.drop start).take (stop - start)).asString ++ "...\n\n"
    | none => "\n" ++ (content.take 500).asString ++ "...\n\n"

/-- The per-result block of the context string
(`search-service.ts:558-586`). -/
def formatResult (query : List Char) (r : ScoredResult) : String :=
  "## " ++ r.document.title ++ "\n" ++
  "Path: " ++ r.document.path ++ "\n" ++
  "Score: " ++ toFixed4 r.score ++ "\n" ++
  snippetFor query r.document.content ++
  "---\n\n"

/-- The full context string for a nonempty result list
(`search-service.ts:555-587`). -/
def formatResults (query : List Char) (results : List ScoredResult) : String :=
  "Search results from vault:\n\n" ++
    String.join (results.map (formatResult query))

/-- The body of the `try` block of `SearchService.searchVault`
(`search-service.ts:485-590`).  `vectorResults` is the list returned by
`vectorSearch` (that method catches its own errors and returns a list, never
throwing); `keywordRes` is the outcome of the Orama keyword `search` call of
the branch taken (its thrown error is what the outer catch sees).  When the
index is not ready the search is skipped and `contextData` stays empty, so
the no-content sentinel is returned. -/
def searchVaultTry (st : SState) (cfg : SearchConfig) (query : List Char)
    (vectorResults : List ScoredResult)
    (keywordRes : Except String (List ScoredResult)) : Except String String :=
  if st.indexReady && st.hasIndex then
    match
      (if cfg.useVectorSearch && cfg.hasEmbeddingService then
        keywordRes.map (fun kws => hybridMerge vectorResults kws cfg.maxSearchResults)
      else keywordRes) with
    | Except.error e => Except.error e
    | Except.ok results =>
      let contextData :=
        if results.length > 0 then formatResults query results else ""
      Except.ok
        (if contextData == "" then "No relevant content found in the vault."
         else contextData)
  else Except.ok "No relevant content found in the vault."

/-- `SearchService.searchVault` (`search-service.ts:484-595`): the `try` body
wrapped in the catch that converts any thrown error into the sentinel
`Error searching vault.` -/
def searchVault (st : SState) (cfg : SearchConfig) (query : List Char)
    (vectorResults : List ScoredResult)
    (keywordRes : Except String (List ScoredResult)) : String :=
  match searchVaultTry st cfg query vectorResults keywordRes with
  | Except.ok s => s
  | Except.error _ => "Error searching vault."

/-! ## Cosine similarity (`EmbeddingService.cosineSimilarity`,
`embedding-service.ts:164-187`)

The arithmetic is over `ℝ` (the idealisation of JavaScript doubles); the
single loop of the source accumulates the dot product and both squared
magnitudes, which for equal-length vectors are the three `dotList` values
below. -/

/-- The accumulated `vec1[i] * vec2[i]` sum of the loop in
`cosineSimilarity`. -/
def dotList (a b : List ℝ) : ℝ :=
  (List.zipWith (fun x y => x * y) a b).sum

open Classical in
/-- `EmbeddingService.cosineSimilarity` (`embedding-service.ts:164-187`):
throws `Vectors must have the same length` on a length mismatch, returns `0`
when either magnitude is zero, and otherwise the dot product divided by the
product of the magnitudes. -/
noncomputable def cosineSimilarity (vec1 vec2 : List ℝ) : Except String ℝ :=
  if vec1.length ≠ vec2.length then
    Except.error "Vectors must have the same length"
  else
    let dotProduct := dotList vec1 vec2
    let mag1 := Real.sqrt (dotList vec1 vec1)
    let mag2 := Real.sqrt (dotList vec2 vec2)
    if mag1 = 0 ∨ mag2 = 0 then Except.ok 0
    else Except.ok (dotProduct / (mag1 * mag2))

/-! ## Concrete fixtures (inputs for witnesses and counterexamples) -/

/-- A five-character document. -/
def fixDoc : NoteDocument :=
  { id := "d", title := "t", content := "abcde".toList, path := "p" }

/-- Chunking options with a positive overlap. -/
def fixOptions : ChunkingOptions := ⟨3, 1⟩

/-- Chunking options with overlap `0` (a valid configuration per the spec:
`0 ≤ chunkOverlap < chunkSize`). -/
def fixZeroOverlap : ChunkingOptions := ⟨2, 0⟩

/-- A short document (content not longer than the chunk sizes above). -/
def fixShortDoc : NoteDocument :=
  { id := "n.md", title := "n", content := "hi".toList, path := "n.md" }

/-- Document fixture `A` for the hybrid-merge scenario. -/
def fixDocA : NoteDocument := { id := "A", title := "A", content := [], path := "A" }

/-- Document fixture `B` for the hybrid-merge scenario. -/
def fixDocB : NoteDocument := { id := "B", title := "B", content := [], path := "B" }

/-- Keyword-only configuration. -/
def fixCfgKeyword : SearchConfig := ⟨⟨1000, 200⟩, false, false, 5⟩

/-- Vector-search configuration chunking at size 3, overlap 1. -/
def fixCfgVector : SearchConfig := ⟨⟨3, 1⟩, true, true, 5⟩

/-- A file whose ledger entry will be the falsy modification time `0`. -/
def fixFileMtimeZero : TFile := ⟨"a.md", "a", 0, "hi".toList⟩

/-- The same file with a nonzero modification time. -/
def fixFileMtime7 : TFile := ⟨"a.md", "a", 7, "hi".toList⟩

/-- A five-character file, chunked into two chunks by `fixCfgVector`. -/
def fixFileBig : TFile := ⟨"b.md", "b", 3, "abcde".toList⟩

/-- The indexed chunk of `fixFileMtimeZero` as `indexFile` stores it. -/
def fixChunkA : NoteDocument :=
  { id := "a.md", title := "a", content := "hi".toList, path := "a.md" }

/-- A ready state whose ledger records modification time `0` for `a.md`. -/
def fixStateMtimeZero : SState :=
  ⟨true, true, false, [fixChunkA], [], [("a.md", 0)], false, 0, false⟩

/-- A ready state whose ledger records modification time `7` for `a.md`. -/
def fixStateMtime7 : SState :=
  ⟨true, true, false, [fixChunkA], [], [("a.md", 7)], false, 0, false⟩

/-- A ready, empty index state. -/
def fixStateEmpty : SState :=
  ⟨true, true, false, [], [], [], false, 0, false⟩

/-- A dirty state that is not ready (reachable during initialization). -/
def fixStateDirtyNotReady : SState :=
  ⟨true, false, false, [], [], [], true, 42, true⟩

/-- A state with no index at all (fresh service before initialization). -/
def fixStateNoIndex : SState :=
  ⟨false, false, false, [], [], [], false, 0, false⟩

/-- An embedder that succeeds on the first chunk content of `fixFileBig`
(`"abc"`) and fails on everything else. -/
def fixEmbedderFirstOnly : Embedder :=
  fun c => if c = "abc".toList then Except.ok [1] else Except.error "x"

/-- The fallback `NoteDocument` used with `List.getD` when indexing chunk
lists by position. -/
def defaultChunk : NoteDocument := { id := "", title := "", content := [], path := "" }

/-- The vector-result list of the hybrid-merge scenario: `A` with score 0.6,
`B` with score 0.8. -/
def fixVectorResults : List ScoredResult := [⟨fixDocA, 6/10⟩, ⟨fixDocB, 8/10⟩]

/-- The keyword-result list of the hybrid-merge scenario: `A` with score
0.9. -/
def fixKeywordResults : List ScoredResult := [⟨fixDocA, 9/10⟩]

/-- A saved sidecar bundle restoring one chunk, one ledger entry and one
embedding. -/
def fixBundle : SavedBundle :=
  ⟨[fixChunkA], [("a.md", 7)], some [("a.md", [1])]⟩

/-! # Theorems

Helper lemmas first, then one theorem per claim (with its witness or
counterexample).  Claim theorems are standalone: no other declaration uses
them, except each witness using exactly its own theorem. -/

/-! ## Chunking lemmas -/

/-- Full characterisation of the chunking loop, for configurations where the
early-termination guard of line 199 never fires: overlap below chunk size,
and (when the overlap is zero) the chunk size not dividing
`content.length - 1`.  Conjuncts: reconstruction, head-chunk length, the
length of every non-final chunk, and the chunk ids. -/
lemma chunkGo_spec (S O : Nat) (id title path : String) (content : List Char)
    (hOS : O < S) (hSL : S < content.length)
    (hgood : 1 ≤ O ∨ ¬ S ∣ (content.length - 1)) :
    ∀ fuel start idx, start < content.length → content.length - start ≤ fuel →
      (O = 0 → S ∣ start) →
      reconstruct O ((chunkGo S O id title path content fuel start idx).map
        (fun c => c.content)) = content.drop start ∧
      (∀ c ∈ (chunkGo S O id title path content fuel start idx).head?,
        c.content.length = min S (content.length - start)) ∧
      (∀ c ∈ (chunkGo S O id title path content fuel start idx).dropLast,
        c.content.length = S) ∧
      ((chunkGo S O id title path content fuel start idx).map (fun c => c.id) =
        (List.range (chunkGo S O id title path content fuel start idx).length).map
          (fun j => chunkId id (idx + j))) := by
  intro fuel
  induction fuel with
  | zero => intro start idx h1 h2 _; omega
  | succ fuel ih =>
    intro start idx h1 h2 hdvd
    rw [chunkGo]
    simp only [if_pos h1]
    by_cases hLS : content.length ≤ start + S
    · -- final chunk: endIndex = content.length
      have hmin : min (start + S) content.length = content.length := by omega
      simp only [hmin, le_refl, if_pos]
      refine ⟨?_, ?_, ?_, ?_⟩
      · simp only [List.map_cons, List.map_nil, reconstruct, List.flatten_nil,
          List.append_nil]
        rw [List.take_of_length_le (by simp)]
      · intro c hc
        simp only [List.head?_cons, Option.mem_some_iff] at hc
        subst hc
        simp only [List.length_take, List.length_drop]
        omega
      · intro c hc
        simp at hc
      · simp [List.range_succ]
    · -- non-final chunk
      have hLS' : start + S < content.length := by omega
      have hmin : min (start + S) content.length = start + S := by omega
      simp only [hmin]
      have hne0 : ¬ (start + S - O = 0 ∨ content.length - 1 ≤ start + S - O) := by
        push_neg
        refine ⟨by omega, ?_⟩
        rcases hgood with hO1 | hndvd
        · omega
        · by_contra hge
          push_neg at hge
          have hO0 : O = 0 := by omega
          obtain ⟨m, hm⟩ := hdvd hO0
          exact hndvd ⟨m + 1, by rw [Nat.mul_add, Nat.mul_one]; omega⟩
      rw [if_neg (by omega : ¬ content.length ≤ start + S), if_neg hne0]
      obtain ⟨r1, r5, r2, r3⟩ := ih (start + S - O) (idx + 1) (by omega) (by omega)
        (fun hO0 => by
          obtain ⟨m, hm⟩ := hdvd hO0
          exact ⟨m + 1, by rw [Nat.mul_add, Nat.mul_one]; omega⟩)
      set rest := chunkGo S O id title path content fuel (start + S - O) (idx + 1)
        with hrestdef
      have hrestne : rest ≠ [] := by
        intro hnil
        rw [hnil] at r1
        simp only [List.map_nil, reconstruct] at r1
        have hlen := congrArg List.length r1
        simp only [List.length_nil, List.length_drop] at hlen
        omega
      obtain ⟨r0, rs, hr0⟩ := List.exists_cons_of_ne_nil hrestne
      have hr0len : r0.content.length = min S (content.length - (start + S - O)) := by
        apply r5
        rw [hr0]
        simp
      have hOr0 : O ≤ r0.content.length := by
        rw [hr0len]
        omega
      have hcc : start + S - start = S := by omega
      refine ⟨?_, ?_, ?_, ?_⟩
      · -- reconstruction
        simp only [List.map_cons, reconstruct]
        rw [hr0] at r1 ⊢
        simp only [List.map_cons, reconstruct] at r1
        simp only [List.map_cons, List.flatten_cons]
        rw [← List.append_assoc, List.append_assoc]
        rw [← List.drop_append_of_le_length hOr0, r1, List.drop_drop]
        have harith : start + S - O + O = start + S := by omega
        rw [harith, hcc]
        rw [show content.drop (start + S) = (content.drop start).drop S by
          rw [List.drop_drop]]
        exact List.take_append_drop S (content.drop start)
      · intro c hc
        simp only [List.head?_cons, Option.mem_some_iff] at hc
        subst hc
        simp only [hcc, List.length_take, List.length_drop]
      · intro c hc
        rw [hr0, List.dropLast_cons₂] at hc
        rcases List.mem_cons.mp hc with hc | hc
        · subst hc
          simp only [hcc, List.length_take, List.length_drop]
          omega
        · apply r2
          rw [hr0]
          exact hc
      · simp only [List.map_cons, List.length_cons]
        rw [List.range_succ_eq_map, List.map_cons, List.map_map]
        refine congrArg₂ _ (by rw [Nat.add_zero]) ?_
        rw [r3]
        apply List.map_congr_left
        intro j _
        simp only [Function.comp_apply, Nat.succ_eq_add_one]
        congr 1
        omega

lemma digitVal_digitChar {m : Nat} (h : m < 10) :
    digitVal (Nat.digitChar m) = m := by
  interval_cases m <;> rfl

lemma parseFrom_cons (a : Nat) (c : Char) (l : List Char) :
    parseFrom a (c :: l) = parseFrom (10 * a + digitVal c) l := rfl

/-- Reading back what `Nat.toDigitsCore` wrote: the digits of `n` land in
front of `ds`, shifting the accumulator by the number of digits written. -/
lemma parseFrom_toDigitsCore (fuel : Nat) :
    ∀ n ds a, n < fuel →
      ∃ k, parseFrom a (Nat.toDigitsCore 10 fuel n ds) =
        parseFrom (a * 10 ^ k + n) ds := by
  induction fuel with
  | zero => intro n ds a h; omega
  | succ fuel ih =>
    intro n ds a h
    rw [Nat.toDigitsCore]
    by_cases hd : n / 10 = 0
    · refine ⟨1, ?_⟩
      simp only [hd, if_true, reduceIte]
      rw [parseFrom_cons, digitVal_digitChar (Nat.mod_lt n (by omega))]
      congr 1
      omega
    · simp only [hd, if_false, reduceIte]
      obtain ⟨k, hk⟩ := ih (n / 10) (Nat.digitChar (n % 10) :: ds) a (by omega)
      refine ⟨k + 1, ?_⟩
      rw [hk, parseFrom_cons, digitVal_digitChar (Nat.mod_lt n (by omega))]
      congr 1
      rw [pow_succ, ← Nat.mul_assoc]
      omega

lemma parseFrom_reprData (n : Nat) : parseFrom 0 (Nat.repr n).data = n := by
  obtain ⟨k, hk⟩ := parseFrom_toDigitsCore (n + 1) n [] 0 (by omega)
  have hdata : (Nat.repr n).data = Nat.toDigits 10 n := rfl
  rw [hdata, Nat.toDigits, hk]
  simp [parseFrom]

/-- The decimal rendering of a natural number is injective. -/
lemma reprNat_injective : Function.Injective Nat.repr := by
  intro m n h
  have hm := parseFrom_reprData m
  rw [h, parseFrom_reprData] at hm
  exact hm.symm

/-- Distinct chunk indices produce distinct chunk ids (for the same base
id). -/
lemma chunkId_right_injective (id : String) {i j : Nat}
    (h : chunkId id i = chunkId id j) : i = j := by
  apply reprNat_injective
  apply String.ext
  have h' := congrArg String.data h
  simp only [chunkId, String.data_append, List.append_assoc] at h'
  exact List.append_cancel_left (List.append_cancel_left h')

/-! ## Claim C9 -/

/-- **C9**: for every document with `content.length ≤ chunkSize`,
`chunkDocument` returns exactly the one-element list holding the document
itself — same id (no `-chunk-` suffix), same content. -/
theorem chunkDocument_single_chunk (o : ChunkingOptions) (d : NoteDocument)
    (h : d.content.length ≤ o.chunkSize) :
    chunkDocument o d = [d] := by
  rw [chunkDocument, if_pos h]

/-- Witness for C9 at a concrete input: a two-character document with chunk
size 3. -/
theorem chunkDocument_single_chunk_witness :
    fixShortDoc.content.length ≤ fixOptions.chunkSize ∧
    chunkDocument fixOptions fixShortDoc = [fixShortDoc] :=
  ⟨by decide, chunkDocument_single_chunk fixOptions fixShortDoc (by decide)⟩

/-! ## Claim C1 -/

/-- **C1** (counterexample): the claim quantifies over all configurations
with `0 ≤ chunkOverlap < chunkSize`.  At `chunkSize = 2`, `chunkOverlap = 0`
(a valid configuration) and the 5-character document `"abcde"` (longer than
`chunkSize`), the loop guard `startIndex >= content.length - 1` fires after
the chunk `"cd"`, so the produced chunks are `"ab"`, `"cd"` and the
reconstruction is `"abcd"`, not `"abcde"`: one character of the document is
lost and the claimed reconstruction identity fails. -/
theorem chunkDocument_reconstruction_counterexample :
    fixZeroOverlap.chunkOverlap < fixZeroOverlap.chunkSize ∧
    fixZeroOverlap.chunkSize < fixDoc.content.length ∧
    reconstruct fixZeroOverlap.chunkOverlap
      ((chunkDocument fixZeroOverlap fixDoc).map (fun c => c.content)) ≠
      fixDoc.content := by
  refine ⟨by decide, by decide, by decide⟩

/-- **C1** (amended): for every document longer than `chunkSize` and every
configuration with `0 ≤ chunkOverlap < chunkSize`, <em>except</em> those
with `chunkOverlap = 0` and `chunkSize` dividing `content.length - 1` (where
the progress guard drops a trailing one-character chunk), the chunks of
`chunkDocument` reconstruct the document exactly (first chunk content, then
each later chunk content with its leading `chunkOverlap` characters
stripped), every chunk except the last has content of length exactly
`chunkSize`, and the chunk ids are `"<id>-chunk-0"`, `"<id>-chunk-1"`, … in
order with no gaps. -/
theorem chunkDocument_reconstruction_amended (o : ChunkingOptions)
    (d : NoteDocument) (hOS : o.chunkOverlap < o.chunkSize)
    (hSL : o.chunkSize < d.content.length)
    (hgood : 1 ≤ o.chunkOverlap ∨ ¬ o.chunkSize ∣ (d.content.length - 1)) :
    reconstruct o.chunkOverlap
      ((chunkDocument o d).map (fun c => c.content)) = d.content ∧
    (∀ c ∈ (chunkDocument o d).dropLast, c.content.length = o.chunkSize) ∧
    (chunkDocument o d).map (fun c => c.id) =
      (List.range (chunkDocument o d).length).map (chunkId d.id) := by
  obtain ⟨r1, _, r2, r3⟩ := chunkGo_spec o.chunkSize o.chunkOverlap d.id d.title
    d.path d.content hOS hSL hgood (d.content.length + 1) 0 0 (by omega)
    (by omega) (fun _ => ⟨0, (Nat.mul_zero _).symm⟩)
  rw [chunkDocument, if_neg (by omega)]
  refine ⟨?_, r2, ?_⟩
  · rw [r1, List.drop_zero]
  · rw [r3]
    apply List.map_congr_left
    intro j _
    rw [Nat.zero_add]

/-- Witness for the amended C1 at a concrete input: `"abcde"` chunked at
size 3 with overlap 1 gives `"abc"`, `"cde"`; reconstruction, chunk lengths
and ids all as claimed. -/
theorem chunkDocument_reconstruction_amended_witness :
    (fixOptions.chunkOverlap < fixOptions.chunkSize ∧
      fixOptions.chunkSize < fixDoc.content.length ∧ 1 ≤ fixOptions.chunkOverlap) ∧
    (reconstruct fixOptions.chunkOverlap
      ((chunkDocument fixOptions fixDoc).map (fun c => c.content)) = fixDoc.content ∧
    (∀ c ∈ (chunkDocument fixOptions fixDoc).dropLast,
      c.content.length = fixOptions.chunkSize) ∧
    (chunkDocument fixOptions fixDoc).map (fun c => c.id) =
      (List.range (chunkDocument fixOptions fixDoc).length).map (chunkId fixDoc.id)) :=
  ⟨⟨by decide, by decide, by decide⟩,
    chunkDocument_reconstruction_amended fixOptions fixDoc (by decide) (by decide)
      (Or.inl (by decide))⟩

/-! ## Map and merge lemmas -/

lemma find?_mapSetFun {α : Type} (m : List (String × α)) (k k' : String) (v : α)
    (h : k' ≠ k) :
    (m.map (fun q => if q.1 == k then (k, v) else q)).find? (fun p => p.1 == k') =
      m.find? (fun p => p.1 == k') := by
  induction m with
  | nil => rfl
  | cons q m ih =>
    by_cases hq : q.1 = k
    · have h1 : (q.1 == k) = true := beq_iff_eq.mpr hq
      have h2 : ((k : String) == k') = false := beq_eq_false_iff_ne.mpr (fun e => h e.symm)
      have h3 : (q.1 == k') = false := by
        rw [beq_eq_false_iff_ne, hq]
        exact fun e => h e.symm
      simp only [List.map_cons, h1, if_true, List.find?_cons, h2, h3]
      exact ih
    · have h1 : (q.1 == k) = false := beq_eq_false_iff_ne.mpr hq
      simp only [List.map_cons, h1, Bool.false_eq_true, if_false, List.find?_cons]
      cases hqk : (q.1 == k') with
      | true => rfl
      | false => exact ih

lemma mapGet_mapSet_self {α : Type} (m : List (String × α)) (k : String) (v : α) :
    mapGet (mapSet m k v) k = some v := by
  rw [mapSet]
  by_cases hm : m.any (fun p => p.1 == k)
  · rw [if_pos hm, mapGet]
    have key : ∀ m' : List (String × α), m'.any (fun p => p.1 == k) →
        (m'.map (fun q => if q.1 == k then (k, v) else q)).find?
          (fun p => p.1 == k) = some (k, v) := by
      intro m'
      induction m' with
      | nil => simp
      | cons q m' ih =>
        intro hany
        by_cases hq : q.1 = k
        · have h1 : (q.1 == k) = true := beq_iff_eq.mpr hq
          simp only [List.map_cons, h1, if_true, List.find?_cons, beq_self_eq_true]
        · have h1 : (q.1 == k) = false := beq_eq_false_iff_ne.mpr hq
          simp only [List.any_cons, h1, Bool.false_or] at hany
          simp only [List.map_cons, h1, Bool.false_eq_true, if_false,
            List.find?_cons, h1]
          exact ih hany
    rw [key m hm]
    rfl
  · rw [if_neg hm, mapGet, List.find?_append]
    have hnone : m.find? (fun p => p.1 == k) = none := by
      rw [List.find?_eq_none]
      intro x hx hpx
      exact hm (List.any_eq_true.mpr ⟨x, hx, hpx⟩)
    rw [hnone]
    simp

lemma mapGet_mapSet_ne {α : Type} (m : List (String × α)) (k k' : String) (v : α)
    (h : k' ≠ k) : mapGet (mapSet m k v) k' = mapGet m k' := by
  rw [mapSet]
  by_cases hm : m.any (fun p => p.1 == k)
  · rw [if_pos hm, mapGet, find?_mapSetFun m k k' v h, mapGet]
  · rw [if_neg hm, mapGet, List.find?_append, mapGet]
    have h1 : ([(k, v)].find? (fun p => p.1 == k')) = none := by
      have : ((k : String) == k') = false := beq_eq_false_iff_ne.mpr (fun e => h e.symm)
      simp [List.find?_cons, this]
    rw [h1]
    cases m.find? (fun p => p.1 == k') <;> rfl

/-- Seeding the map with the vector results (fold of `mapSet`), read back at
key `i`: the unique vector result with that document id wins, else whatever
the initial map held. -/
lemma mapGet_seedFold (vec : List ScoredResult) :
    ∀ (m : List (String × ScoredResult)) (i : String),
      (vec.map (fun r => r.document.id)).Nodup →
      mapGet (vec.foldl (fun m r => mapSet m r.document.id r) m) i =
        match vec.find? (fun r => r.document.id == i) with
        | some r => some r
        | none => mapGet m i := by
  induction vec with
  | nil => intro m i _; rfl
  | cons r rs ih =>
    intro m i hnd
    simp only [List.map_cons, List.nodup_cons] at hnd
    obtain ⟨hri, hnd⟩ := hnd
    by_cases hid : r.document.id = i
    · have h1 : (r.document.id == i) = true := beq_iff_eq.mpr hid
      simp only [List.foldl_cons, List.find?_cons, h1]
      rw [ih (mapSet m r.document.id r) i hnd]
      have hnone : rs.find? (fun r' => r'.document.id == i) = none := by
        rw [List.find?_eq_none]
        intro x hx hpx
        exact hri (by
          rw [hid]
          rw [beq_iff_eq] at hpx
          rw [← hpx]
          exact List.mem_map_of_mem _ hx)
      rw [hnone, ← hid, mapGet_mapSet_self]
    · have h1 : (r.document.id == i) = false := beq_eq_false_iff_ne.mpr hid
      simp only [List.foldl_cons, List.find?_cons, h1]
      rw [ih (mapSet m r.document.id r) i hnd,
        mapGet_mapSet_ne _ _ _ _ (fun e => hid e.symm)]

/-- Folding the keyword results over the seeded map, read back at key `i`:
the unique keyword result with that id replaces the held entry exactly when
its score is strictly greater. -/
lemma mapGet_kwFold (kw : List ScoredResult) :
    ∀ (m : List (String × ScoredResult)) (i : String),
      (kw.map (fun r => r.document.id)).Nodup →
      mapGet (kw.foldl
        (fun m result =>
          match mapGet m result.document.id with
          | some existingResult =>
            if existingResult.score < result.score then
              mapSet m result.document.id result
            else m
          | none => mapSet m result.document.id result) m) i =
        match kw.find? (fun r => r.document.id == i), mapGet m i with
        | some r, some e => some (if e.score < r.score then r else e)
        | some r, none => some r
        | none, _ => mapGet m i := by
  induction kw with
  | nil =>
    intro m i _
    simp only [List.foldl_nil, List.find?_nil]
  | cons r rs ih =>
    intro m i hnd
    simp only [List.map_cons, List.nodup_cons] at hnd
    obtain ⟨hri, hnd⟩ := hnd
    by_cases hid : r.document.id = i
    · have h1 : (r.document.id == i) = true := beq_iff_eq.mpr hid
      simp only [List.foldl_cons, List.find?_cons, h1]
      rw [ih _ i hnd]
      have hnone : rs.find? (fun r' => r'.document.id == i) = none := by
        rw [List.find?_eq_none]
        intro x hx hpx
        refine hri ?_
        rw [hid, ← beq_iff_eq.mp hpx]
        exact List.mem_map_of_mem _ hx
      rw [hnone, ← hid]
      cases hg : mapGet m r.document.id with
      | none => simp [mapGet_mapSet_self]
      | some e =>
        by_cases hsc : e.score < r.score
        · simp [hsc, mapGet_mapSet_self]
        · simp [hsc, hg]
    · have h1 : (r.document.id == i) = false := beq_eq_false_iff_ne.mpr hid
      simp only [List.foldl_cons, List.find?_cons, h1]
      rw [ih _ i hnd]
      have heq : mapGet
          (match mapGet m r.document.id with
            | some existingResult =>
              if existingResult.score < r.score then mapSet m r.document.id r
              else m
            | none => mapSet m r.document.id r) i = mapGet m i := by
        rcases mapGet m r.document.id with _ | e
        · exact mapGet_mapSet_ne _ _ _ _ (fun e => hid e.symm)
        · by_cases hsc : e.score < r.score
          · simp only [if_pos hsc]
            exact mapGet_mapSet_ne _ _ _ _ (fun e => hid e.symm)
          · simp only [if_neg hsc]
      rw [heq]

lemma mem_insertDesc (r x : ScoredResult) (l : List ScoredResult) :
    x ∈ insertDesc r l ↔ x = r ∨ x ∈ l := by
  induction l with
  | nil => simp [insertDesc]
  | cons y ys ih =>
    rw [insertDesc]
    by_cases hc : y.score ≤ r.score
    · simp [hc]
    · simp only [if_neg hc, List.mem_cons, ih]
      tauto

lemma pairwise_insertDesc (r : ScoredResult) (l : List ScoredResult)
    (h : List.Pairwise (fun a b => b.score ≤ a.score) l) :
    List.Pairwise (fun a b => b.score ≤ a.score) (insertDesc r l) := by
  induction l with
  | nil => simp [insertDesc]
  | cons y ys ih =>
    rw [List.pairwise_cons] at h
    obtain ⟨hy, hys⟩ := h
    rw [insertDesc]
    by_cases hc : y.score ≤ r.score
    · rw [if_pos hc, List.pairwise_cons]
      refine ⟨?_, List.pairwise_cons.mpr ⟨hy, hys⟩⟩
      intro a ha
      rcases List.mem_cons.mp ha with rfl | ha
      · exact hc
      · exact le_trans (hy a ha) hc
    · rw [if_neg hc, List.pairwise_cons]
      refine ⟨?_, ih hys⟩
      intro a ha
      rcases (mem_insertDesc r a ys).mp ha with rfl | ha
      · exact le_of_lt (lt_of_not_le hc)
      · exact hy a ha

lemma perm_insertDesc (r : ScoredResult) (l : List ScoredResult) :
    List.Perm (insertDesc r l) (r :: l) := by
  induction l with
  | nil => rfl
  | cons y ys ih =>
    rw [insertDesc]
    by_cases hc : y.score ≤ r.score
    · rw [if_pos hc]
    · rw [if_neg hc]
      exact (ih.cons y).trans (List.Perm.swap r y ys)

lemma sortByScoreDesc_pairwise (l : List ScoredResult) :
    List.Pairwise (fun a b => b.score ≤ a.score) (sortByScoreDesc l) := by
  induction l with
  | nil => simp [sortByScoreDesc]
  | cons x xs ih => exact pairwise_insertDesc x (sortByScoreDesc xs) ih

lemma sortByScoreDesc_perm (l : List ScoredResult) : List.Perm (sortByScoreDesc l) l := by
  induction l with
  | nil => rfl
  | cons x xs ih =>
    rw [sortByScoreDesc]
    exact (perm_insertDesc x (sortByScoreDesc xs)).trans (ih.cons x)


/-! ## Claim C2 -/

/-- **C2**: in hybrid search the merged map is keyed by chunk id with vector
results seeded first; a keyword result replaces the vector entry for the
same id exactly when its score is strictly greater; the merged values are
sorted by score descending (stably) and truncated to `maxSearchResults`;
and in the concrete scenario, chunk `A` (vector 0.6, keyword 0.9) ends with
score 0.9 while chunk `B` (vector only, 0.8) is retained with score 0.8. -/
theorem searchVault_hybrid_merge (vectorResults keywordResults : List ScoredResult)
    (maxSearchResults : Nat)
    (hv : (vectorResults.map (fun r => r.document.id)).Nodup)
    (hk : (keywordResults.map (fun r => r.document.id)).Nodup) :
    (∀ i, mapGet (combineResults vectorResults keywordResults) i =
      match vectorResults.find? (fun r => r.document.id == i),
            keywordResults.find? (fun r => r.document.id == i) with
      | some v, some k => some (if v.score < k.score then k else v)
      | some v, none => some v
      | none, some k => some k
      | none, none => none) ∧
    List.Pairwise (fun a b => b.score ≤ a.score)
      (hybridMerge vectorResults keywordResults maxSearchResults) ∧
    (hybridMerge vectorResults keywordResults maxSearchResults).length ≤
      maxSearchResults ∧
    List.Perm
      (sortByScoreDesc ((combineResults vectorResults keywordResults).map
        (fun p => p.2)))
      ((combineResults vectorResults keywordResults).map (fun p => p.2)) ∧
    hybridMerge fixVectorResults fixKeywordResults 5 =
      [⟨fixDocA, 9/10⟩, ⟨fixDocB, 8/10⟩] := by
  refine ⟨?_, ?_, ?_, sortByScoreDesc_perm _, ?_⟩
  · intro i
    have h1 := mapGet_seedFold vectorResults [] i hv
    have h2 := mapGet_kwFold keywordResults
      (vectorResults.foldl (fun m r => mapSet m r.document.id r) []) i hk
    rw [combineResults]
    rw [h2, h1]
    rcases hvf : vectorResults.find? (fun r => r.document.id == i) with _ | v <;>
      rcases hkf : keywordResults.find? (fun r => r.document.id == i) with _ | k <;>
      simp [hvf, hkf, mapGet]
  · rw [hybridMerge]
    exact List.Pairwise.sublist (List.take_sublist _ _) (sortByScoreDesc_pairwise _)
  · rw [hybridMerge]
    exact List.length_take_le _ _
  · have c1 : ((6/10 : ℚ) < 9/10) = True := eq_true (by norm_num)
    have c2 : ((8/10 : ℚ) ≤ 9/10) = True := eq_true (by norm_num)
    simp [hybridMerge, combineResults, fixVectorResults, fixKeywordResults,
      fixDocA, fixDocB, mapSet, mapGet, sortByScoreDesc, insertDesc, c1, c2]

/-- Witness for C2 at the scenario inputs (which have pairwise distinct
document ids). -/
theorem searchVault_hybrid_merge_witness :
    ((fixVectorResults.map (fun r => r.document.id)).Nodup ∧
     (fixKeywordResults.map (fun r => r.document.id)).Nodup) ∧
    ((∀ i, mapGet (combineResults fixVectorResults fixKeywordResults) i =
      match fixVectorResults.find? (fun r => r.document.id == i),
            fixKeywordResults.find? (fun r => r.document.id == i) with
      | some v, some k => some (if v.score < k.score then k else v)
      | some v, none => some v
      | none, some k => some k
      | none, none => none) ∧
    List.Pairwise (fun a b => b.score ≤ a.score)
      (hybridMerge fixVectorResults fixKeywordResults 5) ∧
    (hybridMerge fixVectorResults fixKeywordResults 5).length ≤ 5 ∧
    List.Perm
      (sortByScoreDesc ((combineResults fixVectorResults fixKeywordResults).map
        (fun p => p.2)))
      ((combineResults fixVectorResults fixKeywordResults).map (fun p => p.2)) ∧
    hybridMerge fixVectorResults fixKeywordResults 5 =
      [⟨fixDocA, 9/10⟩, ⟨fixDocB, 8/10⟩]) :=
  ⟨⟨by decide, by decide⟩,
    searchVault_hybrid_merge fixVectorResults fixKeywordResults 5
      (by decide) (by decide)⟩

/-! ## Indexer state-machine lemmas -/

lemma markDirty_fields (now : Nat) (st : SState) :
    (markDirty now st).hasIndex = st.hasIndex ∧
    (markDirty now st).indexReady = st.indexReady ∧
    (markDirty now st).indexingFailed = st.indexingFailed ∧
    (markDirty now st).ftIndex = st.ftIndex ∧
    (markDirty now st).documentEmbeddings = st.documentEmbeddings ∧
    (markDirty now st).fileModificationTimes = st.fileModificationTimes ∧
    (markDirty now st).isDirty = true := by
  rw [markDirty]
  rcases hd : st.isDirty <;> rcases ht : st.saveTimer <;> simp [hd, ht]

lemma embedChunks_fields (emb : Embedder) :
    ∀ (cs : List NoteDocument) (st : SState),
      (embedChunks emb cs st).2.1.hasIndex = st.hasIndex ∧
      (embedChunks emb cs st).2.1.indexReady = st.indexReady ∧
      (embedChunks emb cs st).2.1.indexingFailed = st.indexingFailed ∧
      (embedChunks emb cs st).2.1.ftIndex = st.ftIndex ∧
      (embedChunks emb cs st).2.1.fileModificationTimes = st.fileModificationTimes ∧
      (embedChunks emb cs st).2.1.isDirty = st.isDirty ∧
      (embedChunks emb cs st).2.1.dirtyTimestamp = st.dirtyTimestamp ∧
      (embedChunks emb cs st).2.1.saveTimer = st.saveTimer := by
  intro cs
  induction cs with
  | nil => intro st; simp [embedChunks]
  | cons c cs ih =>
    intro st
    rw [embedChunks]
    cases emb c.content with
    | error e => simp
    | ok v => simpa using ih _

lemma embedChunks_fails (emb : Embedder) :
    ∀ (cs : List NoteDocument) (st : SState),
      (∃ c ∈ cs, isError (emb c.content) = true) →
      (embedChunks emb cs st).2.2.isSome := by
  intro cs
  induction cs with
  | nil => intro st h; simp at h
  | cons c cs ih =>
    intro st h
    rw [embedChunks]
    cases hc : emb c.content with
    | error e => simp
    | ok v =>
      rcases h with ⟨c', hc', herr⟩
      rcases List.mem_cons.mp hc' with rfl | hc'
      · rw [hc, isError] at herr
        exact absurd herr (by simp)
      · simpa using ih _ ⟨c', hc', herr⟩

lemma embedChunks_mapGet_frame (emb : Embedder) :
    ∀ (cs : List NoteDocument) (st : SState) (i : String),
      (∀ c ∈ cs, c.id ≠ i) →
      mapGet (embedChunks emb cs st).2.1.documentEmbeddings i =
        mapGet st.documentEmbeddings i := by
  intro cs
  induction cs with
  | nil => intro st i _; rfl
  | cons c cs ih =>
    intro st i h
    rw [embedChunks]
    cases hc : emb c.content with
    | error e => rfl
    | ok v =>
      have := ih { st with documentEmbeddings := mapSet st.documentEmbeddings c.id v }
        i (fun c' hc' => h c' (List.mem_cons_of_mem _ hc'))
      simpa [mapGet_mapSet_ne _ _ _ _
        (fun e => (h c (List.mem_cons_self c cs)) e.symm)] using this

/-- After a failing embedding loop, the embeddings computed for the chunks
before the failing one are stored in the embedding store under their chunk
ids. -/
lemma embedChunks_prefix_stored (emb : Embedder) :
    ∀ (cs : List NoteDocument) (k : Nat) (st : SState),
      k < cs.length →
      ((cs.map (fun c => c.id)).Nodup) →
      (∀ i, i < k → isError (emb ((cs.getD i defaultChunk).content)) = false) →
      isError (emb ((cs.getD k defaultChunk).content)) = true →
      (embedChunks emb cs st).2.2.isSome ∧
      (∀ i, i < k → ∀ v, emb ((cs.getD i defaultChunk).content) = Except.ok v →
        mapGet (embedChunks emb cs st).2.1.documentEmbeddings
          ((cs.getD i defaultChunk).id) = some v) := by
  intro cs
  induction cs with
  | nil => intro k st hk; simp at hk
  | cons c cs ih =>
    intro k st hk hnd hsucc hfailk
    simp only [List.map_cons, List.nodup_cons] at hnd
    obtain ⟨hcid, hnd⟩ := hnd
    cases k with
    | zero =>
      simp only [List.getD_cons_zero] at hfailk
      rw [embedChunks]
      cases hc : emb c.content with
      | error e => exact ⟨by simp, fun i hi => by omega⟩
      | ok v =>
        rw [hc, isError] at hfailk
        exact absurd hfailk (by simp)
    | succ k =>
      have hc0 : isError (emb c.content) = false := by
        have := hsucc 0 (by omega)
        simpa using this
      rw [embedChunks]
      cases hc : emb c.content with
      | error e => rw [hc, isError] at hc0; exact absurd hc0 (by simp)
      | ok v =>
        have hk' : k < cs.length := by simpa using hk
        have hsucc' : ∀ i, i < k →
            isError (emb ((cs.getD i defaultChunk).content)) = false := by
          intro i hi
          have := hsucc (i + 1) (by omega)
          simpa using this
        have hfailk' : isError (emb ((cs.getD k defaultChunk).content)) = true := by
          simpa using hfailk
        obtain ⟨he, hstore⟩ := ih k
          { st with documentEmbeddings := mapSet st.documentEmbeddings c.id v }
          hk' hnd hsucc' hfailk'
        refine ⟨by simpa using he, ?_⟩
        intro i hi w hw
        cases i with
        | zero =>
          simp only [List.getD_cons_zero] at hw ⊢
          rw [hc] at hw
          injection hw with hw
          subst hw
          have hframe := embedChunks_mapGet_frame emb cs
            { st with documentEmbeddings := mapSet st.documentEmbeddings c.id v }
            c.id (fun c' hc' e => hcid (e ▸ List.mem_map_of_mem _ hc'))
          rw [hframe, mapGet_mapSet_self]
        | succ i =>
          have := hstore i (by omega) w (by simpa using hw)
          simp only [List.getD_cons_succ]
          simpa using this

lemma removeFold_fields (uv : Bool) :
    ∀ (hits : List NoteDocument) (s : SState),
      (hits.foldl (fun s hit => removeChunk uv s hit.id) s).hasIndex = s.hasIndex ∧
      (hits.foldl (fun s hit => removeChunk uv s hit.id) s).indexReady = s.indexReady ∧
      (hits.foldl (fun s hit => removeChunk uv s hit.id) s).indexingFailed =
        s.indexingFailed ∧
      (hits.foldl (fun s hit => removeChunk uv s hit.id) s).fileModificationTimes =
        s.fileModificationTimes ∧
      (hits.foldl (fun s hit => removeChunk uv s hit.id) s).isDirty = s.isDirty ∧
      (hits.foldl (fun s hit => removeChunk uv s hit.id) s).dirtyTimestamp =
        s.dirtyTimestamp ∧
      (hits.foldl (fun s hit => removeChunk uv s hit.id) s).saveTimer = s.saveTimer ∧
      (hits.foldl (fun s hit => removeChunk uv s hit.id) s).ftIndex =
        s.ftIndex.filter (fun d => ! hits.any (fun h => d.id == h.id)) := by
  intro hits
  induction hits with
  | nil =>
    intro s
    simp [removeChunk]
  | cons h hs ih =>
    intro s
    simp only [List.foldl_cons]
    obtain ⟨f1, f2, f3, f4, f5, f6, f7, f8⟩ := ih (removeChunk uv s h.id)
    refine ⟨f1, f2, f3, f4, f5, f6, f7, ?_⟩
    rw [f8]
    show (List.filter (fun d => ! (d.id == h.id)) s.ftIndex).filter
        (fun d => ! hs.any (fun h => d.id == h.id)) = _
    rw [List.filter_filter]
    apply List.filter_congr
    intro d _
    simp only [List.any_cons, Bool.not_or]
    rw [Bool.and_comm]

/-! ## Claim C3 -/

/-- **C3**: when vector search is enabled and embedding fails for some chunk
of a file, `indexFile` throws (second component `isSome`), inserts no chunk
of that file into the full-text index (everything left in the index was
already there and none of it has the file path), leaves the ledger
untouched, and a vault scan over `f :: fs` stops right there: its result
does not depend on `fs`, the state has `indexingFailed = true`, the error
propagates, and on the failed state every later `indexFile` call is a no-op
(returns the state unchanged and no error) until an explicit full reindex
(`reindexAll` is the only operation that resets `indexingFailed`). -/
theorem indexFile_embed_failure_halts (cfg : SearchConfig) (emb : Embedder)
    (now : Nat) (st : SState) (f : TFile)
    (hvec : cfg.useVectorSearch = true) (hsvc : cfg.hasEmbeddingService = true)
    (hidx : st.hasIndex = true) (hnf : st.indexingFailed = false)
    (hskip : jsSkipUnchanged (mapGet st.fileModificationTimes f.path) f.mtime = false)
    (hembfail : ∃ c ∈ chunkDocument cfg.chunkingOptions (fileDocument f),
      isError (emb c.content) = true) :
    (indexFile cfg emb now st f).2.isSome ∧
    (∀ d ∈ (indexFile cfg emb now st f).1.ftIndex, d ∈ st.ftIndex ∧ d.path ≠ f.path) ∧
    (indexFile cfg emb now st f).1.fileModificationTimes = st.fileModificationTimes ∧
    (indexFile cfg emb now st f).1.hasIndex = true ∧
    (∀ fs, indexVault cfg emb now st (f :: fs) =
      ({ (indexFile cfg emb now st f).1 with indexingFailed := true },
        some "Failed to index vault")) ∧
    (∀ g, indexFile cfg emb now
        { (indexFile cfg emb now st f).1 with indexingFailed := true } g =
      ({ (indexFile cfg emb now st f).1 with indexingFailed := true }, none)) := by
  set hits := st.ftIndex.filter (fun d => d.path == f.path) with hhits
  set st1 := hits.foldl (fun s hit => removeChunk cfg.useVectorSearch s hit.id) st
    with hst1
  set st2 := if hits.length > 0 then markDirty now st1 else st1 with hst2
  set chunks := chunkDocument cfg.chunkingOptions (fileDocument f) with hchunks
  rcases hres : embedChunks emb chunks st2 with ⟨cs', stE, err⟩
  have herr2 : err.isSome := by
    have h := embedChunks_fails emb chunks st2 hembfail
    rw [hres] at h
    exact h
  obtain ⟨e, he⟩ := Option.isSome_iff_exists.mp herr2
  subst he
  have hmain : indexFile cfg emb now st f =
      (stE, some ("Failed to index file " ++ f.path)) := by
    rw [indexFile]
    rw [if_neg (by rw [hidx]; exact fun h => h rfl)]
    rw [if_neg (by rw [hnf]; exact Bool.false_ne_true)]
    rw [if_neg (by rw [hskip]; exact Bool.false_ne_true)]
    rw [show (cfg.useVectorSearch && cfg.hasEmbeddingService) = true by
      rw [hvec, hsvc]; rfl]
    simp only [reduceIte]
    rw [← hst1, ← hst2, ← hchunks, hres]
  have hfldE := embedChunks_fields emb chunks st2
  rw [hres] at hfldE
  obtain ⟨e1, e2, e3, e4, e5, e6, e7, e8⟩ := hfldE
  have hfld1 := removeFold_fields cfg.useVectorSearch hits st
  rw [← hst1] at hfld1
  obtain ⟨g1, g2, g3, g4, g5, g6, g7, g8⟩ := hfld1
  have hst2fields : st2.ftIndex = st1.ftIndex ∧
      st2.fileModificationTimes = st1.fileModificationTimes ∧
      st2.hasIndex = st1.hasIndex := by
    rw [hst2]
    by_cases hlen : hits.length > 0
    · rw [if_pos hlen]
      obtain ⟨m1, _, _, m4, m5, m6, _⟩ := markDirty_fields now st1
      exact ⟨m4, m6, m1⟩
    · rw [if_neg hlen]
      exact ⟨rfl, rfl, rfl⟩
  obtain ⟨s2ft, s2mt, s2hi⟩ := hst2fields
  have hstEft : stE.ftIndex =
      st.ftIndex.filter (fun d => ! hits.any (fun h => d.id == h.id)) := by
    rw [e4, s2ft, g8]
  have hstEhi : stE.hasIndex = true := by
    rw [e1, s2hi, g1, hidx]
  refine ⟨?_, ?_, ?_, ?_, ?_, ?_⟩
  · rw [hmain]
    rfl
  · rw [hmain]
    intro d hd
    simp only at hd
    rw [hstEft] at hd
    obtain ⟨hdmem, hdpred⟩ := List.mem_filter.mp hd
    refine ⟨hdmem, ?_⟩
    intro hpath
    have hdh : d ∈ hits := by
      rw [hhits]
      exact List.mem_filter.mpr ⟨hdmem, beq_iff_eq.mpr hpath⟩
    have : hits.any (fun h => d.id == h.id) = true :=
      List.any_eq_true.mpr ⟨d, hdh, beq_self_eq_true _⟩
    rw [this] at hdpred
    exact absurd hdpred (by simp)
  · rw [hmain]
    simp only
    rw [e5, s2mt, g4]
  · rw [hmain]
    exact hstEhi
  · intro fs
    rw [indexVault]
    rw [if_neg (by rw [hidx]; exact fun h => h rfl)]
    rw [indexVaultGo, hmain]
  · intro g
    rw [hmain]
    rw [indexFile]
    rw [if_neg (by rw [hstEhi]; exact fun h => h rfl)]
    rw [if_pos rfl]

lemma chunkGo_ids (S O : Nat) (id title path : String) (content : List Char) :
    ∀ fuel start idx,
      (chunkGo S O id title path content fuel start idx).map (fun c => c.id) =
        (List.range (chunkGo S O id title path content fuel start idx).length).map
          (fun j => chunkId id (idx + j)) := by
  intro fuel
  induction fuel with
  | zero => intro start idx; simp [chunkGo]
  | succ fuel ih =>
    intro start idx
    rw [chunkGo]
    split
    · dsimp only
      split
      · simp [List.range_succ]
      · split
        · simp [List.range_succ]
        · simp only [List.map_cons, List.length_cons]
          rw [List.range_succ_eq_map, List.map_cons, List.map_map]
          refine congrArg₂ _ (by rw [Nat.add_zero]) ?_
          rw [ih]
          apply List.map_congr_left
          intro j _
          simp only [Function.comp_apply, Nat.succ_eq_add_one]
          congr 1
          omega
    · simp

/-- All chunk ids produced by `chunkDocument` are pairwise distinct. -/
lemma chunkDocument_ids_nodup (o : ChunkingOptions) (d : NoteDocument) :
    ((chunkDocument o d).map (fun c => c.id)).Nodup := by
  rw [chunkDocument]
  split
  · simp
  · rw [chunkGo_ids]
    refine List.Nodup.map_on ?_ (List.nodup_range _)
    intro i _ j _ hij
    have h := chunkId_right_injective d.id hij
    omega

/-! ## Claim C10 -/

/-- **C10**: when vector search is enabled and embedding fails for chunk `k`
(`k > 0`) of a file during `indexFile`, the call throws and no chunk of the
file is inserted into the full-text index, yet the embeddings computed for
chunks `0..k-1` remain stored in the embedding store under their chunk ids:
the abort is atomic for the full-text index but not for the embedding
store. -/
theorem indexFile_partial_embeddings (cfg : SearchConfig) (emb : Embedder)
    (now : Nat) (st : SState) (f : TFile) (k : Nat)
    (hvec : cfg.useVectorSearch = true) (hsvc : cfg.hasEmbeddingService = true)
    (hidx : st.hasIndex = true) (hnf : st.indexingFailed = false)
    (hskip : jsSkipUnchanged (mapGet st.fileModificationTimes f.path) f.mtime = false)
    (hk0 : 0 < k)
    (hk : k < (chunkDocument cfg.chunkingOptions (fileDocument f)).length)
    (hsucc : ∀ i, i < k → isError (emb
      (((chunkDocument cfg.chunkingOptions (fileDocument f)).getD i
        defaultChunk).content)) = false)
    (hfailk : isError (emb
      (((chunkDocument cfg.chunkingOptions (fileDocument f)).getD k
        defaultChunk).content)) = true) :
    (indexFile cfg emb now st f).2.isSome ∧
    (∀ d ∈ (indexFile cfg emb now st f).1.ftIndex, d ∈ st.ftIndex ∧ d.path ≠ f.path) ∧
    (∀ i, i < k → ∀ v, emb
        (((chunkDocument cfg.chunkingOptions (fileDocument f)).getD i
          defaultChunk).content) = Except.ok v →
      mapGet (indexFile cfg emb now st f).1.documentEmbeddings
        (((chunkDocument cfg.chunkingOptions (fileDocument f)).getD i
          defaultChunk).id) = some v) := by
  set hits := st.ftIndex.filter (fun d => d.path == f.path) with hhits
  set st1 := hits.foldl (fun s hit => removeChunk cfg.useVectorSearch s hit.id) st
    with hst1
  set st2 := if hits.length > 0 then markDirty now st1 else st1 with hst2
  set chunks := chunkDocument cfg.chunkingOptions (fileDocument f) with hchunks
  have hnd : (chunks.map (fun c => c.id)).Nodup := by
    rw [hchunks]
    exact chunkDocument_ids_nodup _ _
  obtain ⟨hsome, hstore⟩ :=
    embedChunks_prefix_stored emb chunks k st2 hk hnd hsucc hfailk
  rcases hres : embedChunks emb chunks st2 with ⟨cs', stE, err⟩
  rw [hres] at hsome hstore
  obtain ⟨e, he⟩ := Option.isSome_iff_exists.mp hsome
  subst he
  have hmain : indexFile cfg emb now st f =
      (stE, some ("Failed to index file " ++ f.path)) := by
    rw [indexFile]
    rw [if_neg (by rw [hidx]; exact fun h => h rfl)]
    rw [if_neg (by rw [hnf]; exact Bool.false_ne_true)]
    rw [if_neg (by rw [hskip]; exact Bool.false_ne_true)]
    rw [show (cfg.useVectorSearch && cfg.hasEmbeddingService) = true by
      rw [hvec, hsvc]; rfl]
    simp only [reduceIte]
    rw [← hst1, ← hst2, ← hchunks, hres]
  have hfldE := embedChunks_fields emb chunks st2
  rw [hres] at hfldE
  obtain ⟨e1, e2, e3, e4, e5, e6, e7, e8⟩ := hfldE
  have hfld1 := removeFold_fields cfg.useVectorSearch hits st
  rw [← hst1] at hfld1
  obtain ⟨g1, g2, g3, g4, g5, g6, g7, g8⟩ := hfld1
  have hst2ft : st2.ftIndex = st1.ftIndex := by
    rw [hst2]
    by_cases hlen : hits.length > 0
    · rw [if_pos hlen]
      exact (markDirty_fields now st1).2.2.2.1
    · rw [if_neg hlen]
  have hstEft : stE.ftIndex =
      st.ftIndex.filter (fun d => ! hits.any (fun h => d.id == h.id)) := by
    rw [e4, hst2ft, g8]
  refine ⟨?_, ?_, ?_⟩
  · rw [hmain]
    rfl
  · rw [hmain]
    intro d hd
    simp only at hd
    rw [hstEft] at hd
    obtain ⟨hdmem, hdpred⟩ := List.mem_filter.mp hd
    refine ⟨hdmem, ?_⟩
    intro hpath
    have hdh : d ∈ hits := by
      rw [hhits]
      exact List.mem_filter.mpr ⟨hdmem, beq_iff_eq.mpr hpath⟩
    have hany : hits.any (fun h => d.id == h.id) = true :=
      List.any_eq_true.mpr ⟨d, hdh, beq_self_eq_true _⟩
    rw [hany] at hdpred
    exact absurd hdpred (by simp)
  · intro i hi v hv
    rw [hmain]
    exact hstore i hi v hv

/-! ## Claim C4 -/

/-- **C4** (amended): for every file whose modification time in the ledger
equals its current modification time <em>and is nonzero</em>, a second
`indexFile` call is a pure no-op: it returns the state completely unchanged
and no error (hence no search, deletion, re-chunking, insertion, and no
change to the full-text index, embedding store, ledger or dirty flag). -/
theorem indexFile_skip_unchanged (cfg : SearchConfig) (emb : Embedder)
    (now : Nat) (st : SState) (f : TFile)
    (hidx : st.hasIndex = true) (hnf : st.indexingFailed = false)
    (hledger : mapGet st.fileModificationTimes f.path = some f.mtime)
    (hnz : f.mtime ≠ 0) :
    indexFile cfg emb now st f = (st, none) := by
  have hskip : jsSkipUnchanged (mapGet st.fileModificationTimes f.path)
      f.mtime = true := by
    rw [hledger, jsSkipUnchanged]
    have h0 : (f.mtime == 0) = false := beq_eq_false_iff_ne.mpr hnz
    rw [h0]
    simp
  rw [indexFile]
  rw [if_neg (by rw [hidx]; exact fun h => h rfl)]
  rw [if_neg (by rw [hnf]; exact Bool.false_ne_true)]
  rw [if_pos (by rw [hskip])]

/-- **C4** (counterexample): the claim as stated fails when the recorded
modification time is `0`: JavaScript treats `lastMtime = 0` as falsy, so the
skip test `lastMtime && lastMtime === currentMtime` does not fire, and the
second `indexFile` call re-searches, deletes and re-inserts — observably, it
sets the dirty flag on a previously clean state. -/
theorem indexFile_skip_unchanged_counterexample :
    mapGet fixStateMtimeZero.fileModificationTimes fixFileMtimeZero.path =
      some fixFileMtimeZero.mtime ∧
    fixStateMtimeZero.isDirty = false ∧
    (indexFile fixCfgKeyword failingEmbedder 5 fixStateMtimeZero
      fixFileMtimeZero).1.isDirty = true ∧
    indexFile fixCfgKeyword failingEmbedder 5 fixStateMtimeZero fixFileMtimeZero ≠
      (fixStateMtimeZero, none) := by
  refine ⟨by decide, by decide, by decide, by decide⟩

/-- Witness for the amended C4: ledger time `7` equals the file time and is
nonzero, and the second call returns `(st, none)` exactly. -/
theorem indexFile_skip_unchanged_witness :
    (fixStateMtime7.hasIndex = true ∧ fixStateMtime7.indexingFailed = false ∧
     mapGet fixStateMtime7.fileModificationTimes fixFileMtime7.path =
       some fixFileMtime7.mtime ∧ fixFileMtime7.mtime ≠ 0) ∧
    indexFile fixCfgKeyword failingEmbedder 5 fixStateMtime7 fixFileMtime7 =
      (fixStateMtime7, none) :=
  ⟨⟨rfl, rfl, by decide, by decide⟩,
    indexFile_skip_unchanged fixCfgKeyword failingEmbedder 5 fixStateMtime7
      fixFileMtime7 rfl rfl (by decide) (by decide)⟩

/-- Witness for C3: a two-chunk file, an embedder that always fails, an
empty ready index. -/
theorem indexFile_embed_failure_halts_witness :
    (fixCfgVector.useVectorSearch = true ∧
     fixCfgVector.hasEmbeddingService = true ∧
     fixStateEmpty.hasIndex = true ∧ fixStateEmpty.indexingFailed = false ∧
     jsSkipUnchanged (mapGet fixStateEmpty.fileModificationTimes fixFileBig.path)
       fixFileBig.mtime = false ∧
     (∃ c ∈ chunkDocument fixCfgVector.chunkingOptions (fileDocument fixFileBig),
       isError (failingEmbedder c.content) = true)) ∧
    ((indexFile fixCfgVector failingEmbedder 5 fixStateEmpty fixFileBig).2.isSome ∧
     (∀ d ∈ (indexFile fixCfgVector failingEmbedder 5 fixStateEmpty
        fixFileBig).1.ftIndex,
       d ∈ fixStateEmpty.ftIndex ∧ d.path ≠ fixFileBig.path) ∧
     (indexFile fixCfgVector failingEmbedder 5 fixStateEmpty
        fixFileBig).1.fileModificationTimes =
       fixStateEmpty.fileModificationTimes ∧
     (indexFile fixCfgVector failingEmbedder 5 fixStateEmpty
        fixFileBig).1.hasIndex = true ∧
     (∀ fs, indexVault fixCfgVector failingEmbedder 5 fixStateEmpty
        (fixFileBig :: fs) =
       ({ (indexFile fixCfgVector failingEmbedder 5 fixStateEmpty
            fixFileBig).1 with indexingFailed := true },
         some "Failed to index vault")) ∧
     (∀ g, indexFile fixCfgVector failingEmbedder 5
        { (indexFile fixCfgVector failingEmbedder 5 fixStateEmpty
            fixFileBig).1 with indexingFailed := true } g =
       ({ (indexFile fixCfgVector failingEmbedder 5 fixStateEmpty
            fixFileBig).1 with indexingFailed := true }, none))) :=
  ⟨⟨rfl, rfl, rfl, rfl, by decide, by decide⟩,
    indexFile_embed_failure_halts fixCfgVector failingEmbedder 5 fixStateEmpty
      fixFileBig rfl rfl rfl rfl (by decide) (by decide)⟩

/-- Witness for C10: a two-chunk file (`"abc"`, `"cde"`) and an embedder
succeeding only on the first chunk; the stored embedding of chunk 0
survives the abort. -/
theorem indexFile_partial_embeddings_witness :
    (fixCfgVector.useVectorSearch = true ∧
     fixCfgVector.hasEmbeddingService = true ∧
     fixStateEmpty.hasIndex = true ∧ fixStateEmpty.indexingFailed = false ∧
     jsSkipUnchanged (mapGet fixStateEmpty.fileModificationTimes fixFileBig.path)
       fixFileBig.mtime = false ∧
     0 < 1 ∧
     1 < (chunkDocument fixCfgVector.chunkingOptions
       (fileDocument fixFileBig)).length ∧
     (∀ i, i < 1 → isError (fixEmbedderFirstOnly
       (((chunkDocument fixCfgVector.chunkingOptions
         (fileDocument fixFileBig)).getD i defaultChunk).content)) = false) ∧
     isError (fixEmbedderFirstOnly
       (((chunkDocument fixCfgVector.chunkingOptions
         (fileDocument fixFileBig)).getD 1 defaultChunk).content)) = true) ∧
    ((indexFile fixCfgVector fixEmbedderFirstOnly 5 fixStateEmpty
        fixFileBig).2.isSome ∧
     (∀ d ∈ (indexFile fixCfgVector fixEmbedderFirstOnly 5 fixStateEmpty
        fixFileBig).1.ftIndex,
       d ∈ fixStateEmpty.ftIndex ∧ d.path ≠ fixFileBig.path) ∧
     (∀ i, i < 1 → ∀ v, fixEmbedderFirstOnly
         (((chunkDocument fixCfgVector.chunkingOptions
           (fileDocument fixFileBig)).getD i defaultChunk).content) =
           Except.ok v →
       mapGet (indexFile fixCfgVector fixEmbedderFirstOnly 5 fixStateEmpty
          fixFileBig).1.documentEmbeddings
         (((chunkDocument fixCfgVector.chunkingOptions
           (fileDocument fixFileBig)).getD i defaultChunk).id) = some v)) :=
  ⟨⟨rfl, rfl, rfl, rfl, by decide, by decide, by decide, by decide, by decide⟩,
    indexFile_partial_embeddings fixCfgVector fixEmbedderFirstOnly 5 fixStateEmpty
      fixFileBig 1 rfl rfl rfl rfl (by decide) (by decide) (by decide)
      (by decide) (by decide)⟩

/-! ## Claim C5 -/

/-- **C5** (amended): `markDirty` (the funnel of every mutating indexer
operation) leaves the dirty flag `true` with a nonzero timestamp (given
`Date.now() ≠ 0` and the invariant that an already-dirty state carries a
nonzero timestamp); a successful `save()` clears the flag, zeroes the
timestamp and cancels the auto-save timer; `cleanup()` always cancels the
timer, and performs its best-effort final save (errors swallowed, never
thrown — `cleanup` is total and returns no error) whenever the index is
dirty <em>and ready</em>. -/
theorem dirty_save_lifecycle (now : Nat) (hnow : now ≠ 0) :
    (∀ st : SState, (st.isDirty = true → st.dirtyTimestamp ≠ 0) →
      (markDirty now st).isDirty = true ∧ (markDirty now st).dirtyTimestamp ≠ 0) ∧
    (∀ st : SState, st.hasIndex = true → st.indexReady = true →
      save st true =
        ({ st with isDirty := false, dirtyTimestamp := 0, saveTimer := false },
          none)) ∧
    (∀ (st : SState) (w : Bool), (cleanup st w).1.saveTimer = false) ∧
    (∀ (st : SState) (w : Bool), st.isDirty = true → st.indexReady = true →
      (cleanup st w).2 = true) := by
  refine ⟨?_, ?_, ?_, ?_⟩
  · intro st hinv
    rw [markDirty]
    rcases hd : st.isDirty
    · rcases ht : st.saveTimer <;> simp [hd, ht, hnow]
    · rcases ht : st.saveTimer <;> simp [hd, ht, hinv hd]
  · intro st hhi hrdy
    rw [save]
    rw [if_neg (by rw [hhi, hrdy]; exact fun h => h rfl)]
    rw [if_pos rfl]
  · intro st w
    rw [cleanup]
    dsimp only
    split
    · rw [save]
      split
      · rfl
      · split <;> rfl
    · rfl
  · intro st w hd hr
    rw [cleanup]
    dsimp only
    rw [if_pos (by rw [hd, hr]; rfl)]

/-- **C5** (counterexample): the claim says `cleanup()` performs a final
save whenever the index is currently dirty; but `cleanup` guards the save
with `this.isDirty && this.indexReady` (`search-service.ts:772`), so on a
dirty state that is not yet ready (reachable while `initializeIndex` is
still indexing) no save is performed. -/
theorem cleanup_dirty_not_ready_counterexample :
    fixStateDirtyNotReady.isDirty = true ∧
    (cleanup fixStateDirtyNotReady true).2 = false ∧
    (cleanup fixStateDirtyNotReady true).1.saveTimer = false := by
  refine ⟨by decide, by decide, by decide⟩

/-- Witness for the amended C5 at concrete states. -/
theorem dirty_save_lifecycle_witness :
    ((5 : Nat) ≠ 0 ∧ fixStateMtime7.isDirty = false ∧
     fixStateDirtyNotReady.isDirty = true) ∧
    ((markDirty 5 fixStateMtime7).isDirty = true ∧
      (markDirty 5 fixStateMtime7).dirtyTimestamp ≠ 0) ∧
    save fixStateEmpty true =
      ({ fixStateEmpty with isDirty := false, dirtyTimestamp := 0, saveTimer := false },
        none) ∧
    (cleanup fixStateDirtyNotReady false).1.saveTimer = false :=
  ⟨⟨by decide, by decide, by decide⟩,
    (dirty_save_lifecycle 5 (by decide)).1 fixStateMtime7 (by decide),
    (dirty_save_lifecycle 5 (by decide)).2.1 fixStateEmpty rfl rfl,
    (dirty_save_lifecycle 5 (by decide)).2.2.1 fixStateDirtyNotReady false⟩


/-! ## Claim C6 -/

/-- **C6**: `load()` returns `false` with the state untouched when no
sidecar file exists (index stays not ready); any read/parse/restore error
also yields `false` rather than throwing (`load` is total); it returns
`true` exactly when the file exists and parses, and then the full-text
index, the ledger and (when vector search is enabled and the field is
present) the embedding store are restored and the index is marked ready. -/
theorem load_contract (cfg : SearchConfig) (st : SState) :
    (∀ parsed, load cfg st false parsed = (st, false)) ∧
    (load cfg st true none = (st, false)) ∧
    (∀ b, load cfg st true (some b) =
      ({ st with
          hasIndex := true, ftIndex := b.serializedIndex,
          fileModificationTimes := b.fileModificationTimes,
          documentEmbeddings :=
            if cfg.useVectorSearch && b.documentEmbeddings.isSome then
              b.documentEmbeddings.getD []
            else st.documentEmbeddings,
          indexReady := true }, true)) ∧
    (∀ fe p, (load cfg st fe p).2 = true ↔ (fe = true ∧ p.isSome = true)) ∧
    (∀ fe p, (load cfg st fe p).2 = true → (load cfg st fe p).1.indexReady = true) ∧
    (∀ p, st.indexReady = false → (load cfg st false p).1.indexReady = false) := by
  refine ⟨?_, ?_, ?_, ?_, ?_, ?_⟩
  · intro parsed
    rw [load.eq_def, if_pos Bool.false_ne_true]
  · rw [load.eq_def, if_neg (fun h => h rfl)]
  · intro b
    rw [load.eq_def, if_neg (fun h => h rfl)]
  · intro fe p
    cases fe
    · rw [load.eq_def, if_pos Bool.false_ne_true]
      simp
    · cases p
      · rw [load.eq_def, if_neg (fun h => h rfl)]
        simp
      · rw [load.eq_def, if_neg (fun h => h rfl)]
        simp
  · intro fe p h
    cases fe
    · rw [load.eq_def, if_pos Bool.false_ne_true] at h
      simp at h
    · cases p
      · rw [load.eq_def, if_neg (fun h' => h' rfl)] at h
        simp at h
      · rw [load.eq_def, if_neg (fun h' => h' rfl)]
  · intro p hnr
    rw [load.eq_def, if_pos Bool.false_ne_true]
    exact hnr

/-- Witness for C6: a successful load of a concrete bundle, and a missing
sidecar file. -/
theorem load_contract_witness :
    (load fixCfgVector fixStateNoIndex true (some fixBundle)).2 = true ∧
    (load fixCfgVector fixStateNoIndex true (some fixBundle)).1.indexReady = true ∧
    (load fixCfgVector fixStateNoIndex false none = (fixStateNoIndex, false)) :=
  ⟨by decide,
    (load_contract fixCfgVector fixStateNoIndex).2.2.2.2.1 true (some fixBundle)
      (by decide),
    (load_contract fixCfgVector fixStateNoIndex).1 none⟩

/-! ## Claim C7 -/

lemma formatResults_not_empty (query : List Char) (results : List ScoredResult) :
    (formatResults query results == "") = false := by
  rw [beq_eq_false_iff_ne]
  intro h
  have hd := congrArg String.data h
  rw [formatResults, String.data_append] at hd
  have := List.append_eq_nil.mp hd
  have hne : ("Search results from vault:\n\n" : String).data ≠ [] := by decide
  exact hne this.1

/-- **C7**: `searchVault` is a total function of its oracles — no exception
escapes.  When the index is not ready it returns the sentinel
`No relevant content found in the vault.`; when the keyword search throws,
the sentinel `Error searching vault.`; when no results are produced, the
no-content sentinel again; and in every case the output is one of the two
sentinels or the formatted context block of a nonempty result list. -/
theorem searchVault_sentinels (st : SState) (cfg : SearchConfig)
    (query : List Char) (vectorResults : List ScoredResult)
    (keywordRes : Except String (List ScoredResult)) :
    (¬ (st.indexReady = true ∧ st.hasIndex = true) →
      searchVault st cfg query vectorResults keywordRes =
        "No relevant content found in the vault.") ∧
    (∀ e, keywordRes = Except.error e → st.indexReady = true → st.hasIndex = true →
      searchVault st cfg query vectorResults keywordRes =
        "Error searching vault.") ∧
    (∀ kws, keywordRes = Except.ok kws →
      (if cfg.useVectorSearch && cfg.hasEmbeddingService then
        hybridMerge vectorResults kws cfg.maxSearchResults
      else kws) = [] →
      searchVault st cfg query vectorResults keywordRes =
        "No relevant content found in the vault.") ∧
    (searchVault st cfg query vectorResults keywordRes =
        "No relevant content found in the vault." ∨
      searchVault st cfg query vectorResults keywordRes =
        "Error searching vault." ∨
      ∃ kws, keywordRes = Except.ok kws ∧
        ∃ results, results ≠ [] ∧
          searchVault st cfg query vectorResults keywordRes =
            formatResults query results) := by
  by_cases hready : st.indexReady = true ∧ st.hasIndex = true
  · have hcond : (st.indexReady && st.hasIndex) = true := by
      rw [hready.1, hready.2]; rfl
    refine ⟨fun h => absurd hready h, ?_, ?_, ?_⟩
    · intro e he _ _
      subst he
      rw [searchVault, searchVaultTry, if_pos hcond]
      by_cases hyb : cfg.useVectorSearch && cfg.hasEmbeddingService
      · rw [if_pos hyb]
        rfl
      · rw [if_neg hyb]
    · intro kws hkws hempty
      subst hkws
      rw [searchVault, searchVaultTry, if_pos hcond]
      by_cases hyb : cfg.useVectorSearch && cfg.hasEmbeddingService
      · rw [if_pos hyb] at hempty ⊢
        dsimp only [Except.map]
        rw [hempty]
        rfl
      · rw [if_neg hyb] at hempty ⊢
        subst hempty
        rfl
    · cases hkr : keywordRes with
      | error e =>
        right; left
        rw [searchVault, searchVaultTry, if_pos hcond]
        by_cases hyb : cfg.useVectorSearch && cfg.hasEmbeddingService
        · rw [if_pos hyb]
          rfl
        · rw [if_neg hyb]
      | ok kws =>
        by_cases hyb : cfg.useVectorSearch && cfg.hasEmbeddingService
        · rcases hres : hybridMerge vectorResults kws cfg.maxSearchResults with
            _ | ⟨r, rs⟩
          · left
            rw [searchVault, searchVaultTry, if_pos hcond, if_pos hyb]
            dsimp only [Except.map]
            rw [hres]
            rfl
          · right; right
            refine ⟨kws, rfl, r :: rs, by simp, ?_⟩
            rw [searchVault, searchVaultTry, if_pos hcond, if_pos hyb]
            dsimp only [Except.map]
            rw [hres]
            have hfmt := formatResults_not_empty query (r :: rs)
            simp only [List.length_cons, gt_iff_lt, Nat.zero_lt_succ, if_true]
            rw [hfmt]
            rfl
        · rcases kws with _ | ⟨r, rs⟩
          · left
            rw [searchVault, searchVaultTry, if_pos hcond, if_neg hyb]
            rfl
          · right; right
            refine ⟨r :: rs, rfl, r :: rs, by simp, ?_⟩
            rw [searchVault, searchVaultTry, if_pos hcond, if_neg hyb]
            have hfmt := formatResults_not_empty query (r :: rs)
            simp only [List.length_cons, gt_iff_lt, Nat.zero_lt_succ, if_true]
            rw [hfmt]
            rfl
  · have hcond : (st.indexReady && st.hasIndex) = false := by
      cases h1 : st.indexReady with
      | false => rfl
      | true =>
        cases h2 : st.hasIndex with
        | false => rfl
        | true => exact absurd ⟨h1, h2⟩ hready
    have hout : searchVault st cfg query vectorResults keywordRes =
        "No relevant content found in the vault." := by
      rw [searchVault, searchVaultTry, if_neg (by rw [hcond]; exact Bool.false_ne_true)]
    exact ⟨fun _ => hout, fun e _ h1 h2 => absurd ⟨h1, h2⟩ hready, fun kws _ _ => hout, Or.inl hout⟩

/-- Witness for C7: a not-ready state yields the no-content sentinel. -/
theorem searchVault_sentinels_witness :
    (¬ (fixStateNoIndex.indexReady = true ∧ fixStateNoIndex.hasIndex = true)) ∧
    searchVault fixStateNoIndex fixCfgKeyword "q".toList []
      (Except.ok [⟨fixDocA, 1⟩]) = "No relevant content found in the vault." :=
  ⟨by decide,
    (searchVault_sentinels fixStateNoIndex fixCfgKeyword "q".toList []
      (Except.ok [⟨fixDocA, 1⟩])).1 (by decide)⟩

/-! ## Claim C8 -/

lemma dotList_self_nonneg (a : List ℝ) : 0 ≤ dotList a a := by
  induction a with
  | nil => simp [dotList]
  | cons x xs ih =>
    rw [dotList] at ih ⊢
    simp only [List.zipWith_cons_cons, List.sum_cons]
    have hx : 0 ≤ x * x := mul_self_nonneg x
    linarith

lemma dotList_eq_sum (a : List ℝ) :
    ∀ b : List ℝ, a.length = b.length →
      dotList a b = ∑ i ∈ Finset.range a.length, a.getD i 0 * b.getD i 0 := by
  induction a with
  | nil => intro b h; simp [dotList]
  | cons x xs ih =>
    intro b h
    cases b with
    | nil => simp at h
    | cons y ys =>
      simp only [List.length_cons] at h
      rw [dotList]
      simp only [List.zipWith_cons_cons, List.sum_cons, List.length_cons]
      rw [Finset.sum_range_succ']
      simp only [List.getD_cons_succ, List.getD_cons_zero]
      rw [← dotList, ih ys (by omega)]
      ring

lemma dotList_sq_le (a b : List ℝ) (h : a.length = b.length) :
    (dotList a b) ^ 2 ≤ dotList a a * dotList b b := by
  rw [dotList_eq_sum a b h, dotList_eq_sum a a rfl, dotList_eq_sum b b rfl, h]
  have := Finset.sum_mul_sq_le_sq_mul_sq (Finset.range b.length)
    (fun i => a.getD i 0) (fun i => b.getD i 0)
  calc (∑ i ∈ Finset.range b.length, a.getD i 0 * b.getD i 0) ^ 2
      ≤ (∑ i ∈ Finset.range b.length, a.getD i 0 ^ 2) *
        ∑ i ∈ Finset.range b.length, b.getD i 0 ^ 2 := this
    _ = (∑ i ∈ Finset.range b.length, a.getD i 0 * a.getD i 0) *
        ∑ i ∈ Finset.range b.length, b.getD i 0 * b.getD i 0 := by
        simp only [pow_two]

/-- **C8**: `cosineSimilarity` fails with
`Vectors must have the same length` for every pair of vectors of unequal
length; for equal-length vectors it returns `0` whenever either vector has
zero magnitude; and otherwise it returns the dot product divided by the
product of the magnitudes, a value in `[-1, 1]` (Cauchy-Schwarz). -/
theorem cosineSimilarity_spec :
    (∀ a b : List ℝ, a.length ≠ b.length →
      cosineSimilarity a b = Except.error "Vectors must have the same length") ∧
    (∀ a b : List ℝ, a.length = b.length →
      dotList a a = 0 ∨ dotList b b = 0 →
      cosineSimilarity a b = Except.ok 0) ∧
    (∀ a b : List ℝ, a.length = b.length →
      dotList a a ≠ 0 → dotList b b ≠ 0 →
      cosineSimilarity a b = Except.ok (dotList a b /
        (Real.sqrt (dotList a a) * Real.sqrt (dotList b b))) ∧
      -1 ≤ dotList a b / (Real.sqrt (dotList a a) * Real.sqrt (dotList b b)) ∧
      dotList a b / (Real.sqrt (dotList a a) * Real.sqrt (dotList b b)) ≤ 1) := by
  refine ⟨?_, ?_, ?_⟩
  · intro a b h
    rw [cosineSimilarity, if_pos h]
  · intro a b h hz
    rw [cosineSimilarity, if_neg (by exact fun h' => h' h)]
    dsimp only
    rw [if_pos ?_]
    rcases hz with hz | hz
    · left; rw [hz, Real.sqrt_zero]
    · right; rw [hz, Real.sqrt_zero]
  · intro a b h ha hb
    have hapos : 0 < dotList a a := lt_of_le_of_ne (dotList_self_nonneg a) (Ne.symm ha)
    have hbpos : 0 < dotList b b := lt_of_le_of_ne (dotList_self_nonneg b) (Ne.symm hb)
    have hsa : 0 < Real.sqrt (dotList a a) := Real.sqrt_pos.mpr hapos
    have hsb : 0 < Real.sqrt (dotList b b) := Real.sqrt_pos.mpr hbpos
    have hm : 0 < Real.sqrt (dotList a a) * Real.sqrt (dotList b b) :=
      mul_pos hsa hsb
    have habs : |dotList a b| ≤ Real.sqrt (dotList a a) * Real.sqrt (dotList b b) := by
      rw [← Real.sqrt_sq_eq_abs, ← Real.sqrt_mul (le_of_lt hapos)]
      exact Real.sqrt_le_sqrt (dotList_sq_le a b h)
    have hdivabs : |dotList a b / (Real.sqrt (dotList a a) * Real.sqrt (dotList b b))| ≤ 1 := by
      rw [abs_div, abs_of_pos hm]
      exact (div_le_one hm).mpr habs
    refine ⟨?_, (abs_le.mp hdivabs).1, (abs_le.mp hdivabs).2⟩
    rw [cosineSimilarity, if_neg (by exact fun h' => h' h)]
    dsimp only
    rw [if_neg ?_]
    push_neg
    exact ⟨ne_of_gt hsa, ne_of_gt hsb⟩

/-- Witness for C8 at the concrete vector `[1, 0]` paired with itself. -/
theorem cosineSimilarity_spec_witness :
    (([(1 : ℝ), 0].length = [(1 : ℝ), 0].length) ∧
     dotList [(1 : ℝ), 0] [(1 : ℝ), 0] ≠ 0) ∧
    (cosineSimilarity [(1 : ℝ), 0] [(1 : ℝ), 0] =
      Except.ok (dotList [(1 : ℝ), 0] [(1 : ℝ), 0] /
        (Real.sqrt (dotList [(1 : ℝ), 0] [(1 : ℝ), 0]) *
          Real.sqrt (dotList [(1 : ℝ), 0] [(1 : ℝ), 0]))) ∧
     -1 ≤ dotList [(1 : ℝ), 0] [(1 : ℝ), 0] /
        (Real.sqrt (dotList [(1 : ℝ), 0] [(1 : ℝ), 0]) *
          Real.sqrt (dotList [(1 : ℝ), 0] [(1 : ℝ), 0])) ∧
     dotList [(1 : ℝ), 0] [(1 : ℝ), 0] /
        (Real.sqrt (dotList [(1 : ℝ), 0] [(1 : ℝ), 0]) *
          Real.sqrt (dotList [(1 : ℝ), 0] [(1 : ℝ), 0])) ≤ 1) :=
  ⟨⟨rfl, by norm_num [dotList]⟩,
    cosineSimilarity_spec.2.2 [(1 : ℝ), 0] [(1 : ℝ), 0] rfl
      (by norm_num [dotList]) (by norm_num [dotList])⟩
